import Mathlib

/-!
Shallow embedding of the SSE fan-out engine of `go-sse-ai-chat`
(`internal/sse/broker.go`, `internal/sse/client.go`,
`internal/sse/message_store.go`, and the SSE handler in
`internal/handlers`), together with theorems settling the frozen claims
about it.

Modelling conventions:
* Go `time.Time` instants are modelled as `Int`; `t1.After(t2)` is the
  strict comparison `t2 < t1`.
* A buffered Go channel is modelled as a FIFO `List` together with its
  capacity; a non-blocking/timeout send succeeds exactly when the buffer
  has room (the 5s grace period of `Client.Send` is collapsed into the
  full/not-full test, which is the behaviour when the reader makes no
  progress during the wait).
* `json.RawMessage` payloads are modelled as `String`s that already hold
  valid serialized JSON, so the `json.Marshal` calls on them succeed and
  return the bytes; none of the claims under study concerns a payload
  that fails to serialize.
* The broker's registry `map[string]*Client` is modelled as an
  association list of `Client`s keyed by their `id`; Go map update
  replaces the entry with the same key, insertion appends.
* Diagnostic-only fields (`ConnectedAt`, `LastActivity`, logging) are
  omitted: no claim mentions them.
* `Register` and `Unregister` are unbuffered channels whose only
  receiver is the control loop; a `Client.Close` executed *by* that loop
  therefore blocks forever on its `Unregister` send, which the shutdown
  model (`closeClientsLoop`) makes explicit.
-/

namespace GoSSE

/-- `sse.Client` (client.go): one live SSE stream. `messageChan` is the
contents of the buffered channel `MessageChan` (oldest first) and
`chanCapacity` its capacity (256 in `NewClient`); `isClosed` is the
`IsClosed` terminal flag. -/
structure Client where
  id : String
  messageChan : List String
  chanCapacity : Nat
  isClosed : Bool
  deriving Repr, DecidableEq

/-- `sse.Message` (broker.go): `Event` name, `Data` as serialized JSON,
and `Target` client id (`""` for broadcast). There is no topic field. -/
structure Message where
  event : String
  data : String
  target : String
  deriving Repr, DecidableEq

/-- Outcome of `Client.Send`: success with the updated client, or one of
its two error returns. -/
inductive SendResult where
  | ok (c : Client)
  | closedErr
  | timeoutErr
  deriving Repr, DecidableEq

/-- `Client.Send` (client.go): fails if the client is closed; otherwise
the buffered-channel send succeeds when the buffer has room and times
out when it stays full. -/
def Client.send (c : Client) (msg : String) : SendResult :=
  if c.isClosed then .closedErr
  else if c.chanCapacity ≤ c.messageChan.length then .timeoutErr
  else .ok { c with messageChan := c.messageChan ++ [msg] }

/-- The broker's use of `Client.Send` inside `broadcastMessage`: a send
error is only logged, leaving the client as it was. -/
def Client.sendOrKeep (c : Client) (msg : String) : Client :=
  match c.send msg with
  | .ok c2 => c2
  | _ => c

/-- The mutation prefix of `Client.Close` (client.go lines 334–351):
sets the terminal `IsClosed` flag and cancels the context. The Go
function then sends on the *unbuffered* `Unregister` channel before
closing `MessageChan`; the control loop is that channel's only
receiver, so when `Close` is invoked by the control loop itself (the
capacity-rejection path of `registerClient`, and the shutdown sweep)
that send can never be received and `Close` never returns —
`closeClientsLoop` models that blocking; this definition is only the
state reached before the send. -/
def Client.close (c : Client) : Client :=
  { c with isClosed := true }

/-- `sse.Broker` (broker.go): registry of clients keyed by id, and the
`MaxClients` ceiling. The `Register`/`Unregister`/`Broadcast` channels
are modelled by feeding `BrokerOp`s to the control-loop step function. -/
structure Broker where
  clients : List Client
  maxClients : Nat
  deriving Repr, DecidableEq

/-- Go map lookup `b.Clients[id]` on the association-list registry. -/
def registryGet (cs : List Client) (id : String) : Option Client :=
  cs.find? (fun c => c.id = id)

/-- Go map update `b.Clients[c.ID] = c`: replaces the entry with the
same key if present, otherwise inserts. -/
def registrySet (cs : List Client) (c : Client) : List Client :=
  if cs.any (fun x => x.id = c.id) then
    cs.map (fun x => if x.id = c.id then c else x)
  else cs ++ [c]

/-- Go map deletion `delete(b.Clients, id)`. -/
def registryDel (cs : List Client) (id : String) : List Client :=
  cs.filter (fun c => ¬ c.id = id)

/-- `NewBroker` (broker.go). -/
def newBroker (maxClients : Nat) : Broker :=
  { clients := [], maxClients := maxClients }

/-- `Broker.registerClient` (broker.go lines 86–100): if the registry
has reached `MaxClients` the new client is closed and the registry is
untouched; otherwise the client is stored under its id. Returns the
broker together with the caller's view of the client after the call. -/
def Broker.registerClient (b : Broker) (c : Client) : Broker × Client :=
  if b.maxClients ≤ b.clients.length then
    (b, c.close)
  else
    ({ b with clients := registrySet b.clients c }, c)

/-- `Broker.unregisterClient` (broker.go lines 102–115): no-op when no
entry with that id exists, otherwise deletes the entry. -/
def Broker.unregisterClient (b : Broker) (c : Client) : Broker :=
  match registryGet b.clients c.id with
  | none => b
  | some _ => { b with clients := registryDel b.clients c.id }

/-- `json.Marshal` applied to a `json.RawMessage` (broker.go line 123):
payloads are modelled as already-valid JSON, so marshalling succeeds and
yields the bytes. -/
def marshalRawMessage (data : String) : Option String :=
  some data

/-- `Broker.broadcastMessage` (broker.go lines 118–145): marshal the
payload; if `Target` is set, send only to the client registered under
that id (no-op when absent); otherwise send to every registered client.
Individual send failures are logged and skipped. -/
def Broker.broadcastMessage (b : Broker) (m : Message) : Broker :=
  match marshalRawMessage m.data with
  | none => b
  | some payload =>
    if m.target ≠ "" then
      match registryGet b.clients m.target with
      | some c => { b with clients := registrySet b.clients (c.sendOrKeep payload) }
      | none => b
    else
      { b with clients := b.clients.map (fun c => c.sendOrKeep payload) }

/-- Outcome of the `closeAllClients` iteration: either every
`client.Close()` call returned — possible only when every client was
already closed, each call then being a no-op — or the loop is
deadlocked inside the first `Close` of an open client, with the client
states as they stand at that moment. -/
inductive SweepResult where
  | completed (cs : List Client)
  | blocked (cs : List Client)
  deriving Repr, DecidableEq

/-- The `for _, client := range b.Clients { client.Close() }` loop of
`closeAllClients` (broker.go lines 154–156): `Close` on an already
closed client returns immediately; on an open client it sets `IsClosed`
and then blocks forever on `c.Broker.Unregister <- c` — the unbuffered
channel's only receiver is the control loop executing this very loop —
so iteration stops there and the remaining clients are never touched. -/
def closeClientsLoop : List Client → SweepResult
  | [] => .completed []
  | c :: rest =>
    if c.isClosed then
      match closeClientsLoop rest with
      | .completed cs => .completed (c :: cs)
      | .blocked cs => .blocked (c :: cs)
    else .blocked (c.close :: rest)

/-- `Broker.closeAllClients` (broker.go lines 148–160) as executed on
the shutdown path of `Start`: only if the closing loop completes is the
registry replaced by a fresh empty map (second component `true`);
otherwise the control loop is deadlocked mid-sweep and the registry —
still holding every entry — is never cleared (second component
`false`). -/
def Broker.closeAllClients (b : Broker) : Broker × Bool :=
  match closeClientsLoop b.clients with
  | .completed _ => ({ b with clients := [] }, true)
  | .blocked cs => ({ b with clients := cs }, false)

/-- `Broker.GetClientCount` (broker.go lines 163–168), the value behind
the stats endpoint. -/
def Broker.getClientCount (b : Broker) : Nat :=
  b.clients.length

/-- One intake of the `Broker.Start` control loop (broker.go lines
59–83): a registration, an unregistration, or a queued broadcast. -/
inductive BrokerOp where
  | register (c : Client)
  | unregister (c : Client)
  | broadcast (m : Message)
  deriving Repr

/-- One iteration of the `Start` select loop on a non-shutdown intake. -/
def Broker.step (b : Broker) (op : BrokerOp) : Broker :=
  match op with
  | .register c => (b.registerClient c).1
  | .unregister c => b.unregisterClient c
  | .broadcast m => b.broadcastMessage m

/-- Successive broadcasts drained in FIFO order from the buffered
`Broadcast` channel by the control loop. -/
def Broker.processBroadcasts (b : Broker) (ms : List Message) : Broker :=
  ms.foldl Broker.broadcastMessage b

/-- The SSE frame `Client.Listen` writes for one received message
(client.go line 320): `fmt.Fprintf(w, "data: %s\n\n", msg)`. -/
def sseDataFrame (msg : String) : String :=
  "data: " ++ msg ++ "\n\n"

/-- The data frames `Client.Listen` (client.go lines 268–331) writes to
the transport while draining the FIFO `MessageChan`: one frame per
queued message, in queue order (keepalive pings, which are not data
events, are not modelled). -/
def Client.listenOutput (c : Client) : List String :=
  c.messageChan.map sseDataFrame

/-- `json.Marshal` of the producer-supplied `data` in `SendToClient`
(broker.go line 172), modelled on serializable values. -/
def marshalValue (data : String) : Option String :=
  some data

/-- `Broker.SendToClient` (broker.go lines 171–184): marshals the data
and, on success, returns `nil` after enqueueing a targeted message on
the `Broadcast` channel. The result carries the enqueued message. -/
def sendToClientMsg (clientID event data : String) : Except String Message :=
  match marshalValue data with
  | none => .error "marshal error"
  | some dataJSON => .ok { event := event, data := dataJSON, target := clientID }

end GoSSE

namespace GoSSE

/-- `sse.StoredMessage` (message_store.go): an entry kept for replay. -/
structure StoredMessage where
  id : String
  event : String
  data : String
  timestamp : Int
  deriving Repr, DecidableEq

/-- `msg.Timestamp.After(t)` (strict). -/
def StoredMessage.afterTime (m : StoredMessage) (t : Int) : Bool :=
  t < m.timestamp

/-- The store's map `map[string][]*StoredMessage` as an association
list keyed by chat id. -/
abbrev ChatHistory := List (String × List StoredMessage)

/-- Go map lookup on the history map. -/
def historyGet (h : ChatHistory) (chatID : String) : Option (List StoredMessage) :=
  (h.find? (fun p => p.1 = chatID)).map (fun p => p.2)

/-- Go map update on the history map. -/
def historySet (h : ChatHistory) (chatID : String) (v : List StoredMessage) : ChatHistory :=
  if h.any (fun p => p.1 = chatID) then
    h.map (fun p => if p.1 = chatID then (chatID, v) else p)
  else h ++ [(chatID, v)]

/-- `sse.MessageStore` (message_store.go): per-chat entry lists, the
per-chat count cap, the retention window, and the last-sweep time. -/
structure MessageStore where
  messages : ChatHistory
  maxMessagesPerChat : Nat
  maxMessageAge : Int
  lastCleanup : Int
  deriving Repr, DecidableEq

/-- `NewMessageStore` (message_store.go lines 46–53). -/
def newMessageStore (maxMessagesPerChat : Nat) (maxMessageAge : Int) (now : Int) : MessageStore :=
  { messages := [], maxMessagesPerChat := maxMessagesPerChat,
    maxMessageAge := maxMessageAge, lastCleanup := now }

/-- The entries currently stored for one chat (empty when the key is
absent, mirroring Go's zero-value map read). -/
def MessageStore.topicEntries (s : MessageStore) (chatID : String) : List StoredMessage :=
  (historyGet s.messages chatID).getD []

/-- `MessageStore.StoreMessage` (message_store.go lines 56–83): append
the new entry (timestamped now) to the chat's list, then if the list
exceeds `maxMessagesPerChat`, drop its oldest entry (`[1:]`). The
periodic `go s.cleanup()` trigger is modelled as the separate `cleanup`
step. -/
def MessageStore.storeMessage (s : MessageStore) (chatID messageID event data : String)
    (now : Int) : MessageStore :=
  let old := (historyGet s.messages chatID).getD []
  let appended := old ++ [{ id := messageID, event := event, data := data, timestamp := now }]
  let trimmed := if s.maxMessagesPerChat < appended.length then appended.tail else appended
  { s with messages := historySet s.messages chatID trimmed }

/-- The shared loop shape of `GetRecentMessages` and `cleanup`: collect,
in order, the entries whose timestamp is strictly after `t`. -/
def collectAfter (t : Int) (msgs : List StoredMessage) : List StoredMessage :=
  msgs.foldl (fun acc m => if m.afterTime t then acc ++ [m] else acc) []

/-- `MessageStore.GetRecentMessages` (message_store.go lines 86–104):
empty when the chat has no list; otherwise the entries with `Timestamp`
after `since`, in stored order. -/
def MessageStore.getRecentMessages (s : MessageStore) (chatID : String) (since : Int) :
    List StoredMessage :=
  match historyGet s.messages chatID with
  | none => []
  | some msgs => collectAfter since msgs

/-- `MessageStore.cleanup` (message_store.go lines 107–132): stamps the
sweep time, keeps per chat only the entries newer than
`now - maxMessageAge`, and deletes a chat's key when nothing is kept. -/
def MessageStore.cleanup (s : MessageStore) (now : Int) : MessageStore :=
  let cutoff := now - s.maxMessageAge
  { s with lastCleanup := now,
           messages :=
             (s.messages.map (fun p => (p.1, collectAfter cutoff p.2))).filter
               (fun p => 0 < p.2.length) }

/-- One `StoreMessage` call with its arguments and wall-clock instant. -/
structure StoreOp where
  chatID : String
  messageID : String
  event : String
  data : String
  now : Int
  deriving Repr

/-- A sequence of `StoreMessage` calls applied in order. -/
def runStores (s : MessageStore) (ops : List StoreOp) : MessageStore :=
  ops.foldl (fun s o => s.storeMessage o.chatID o.messageID o.event o.data o.now) s

/-- The chat topic encoded in a client id by the SSE handler
(`handlers` `HandleStream` builds ids as `chatID_uuid`, and the stats
path counts a chat's clients by this prefix): the id's text before its
first underscore. -/
def clientTopic (id : String) : String :=
  String.mk (id.data.takeWhile (fun ch => ¬ ch = '_'))

/-- `strings.HasPrefix(s, pre)` on the underlying characters. -/
def goStringBegins (s pre : String) : Bool :=
  pre.data.isPrefixOf s.data

/-- The client-id choice of `HandleStream` (message_handler.go lines
219–225): keep the client-supplied `client_id` query parameter when it
is non-empty and starts with `chatID + "_"`, otherwise mint
`chatID + "_" + uuid`. -/
def chooseClientID (chatID clientIDParam freshUUID : String) : String :=
  if clientIDParam = "" ∨ ¬ goStringBegins clientIDParam (chatID ++ "_") then
    chatID ++ "_" ++ freshUUID
  else clientIDParam

/-- The producer-to-subscriber pipeline state: the broker plus the
replay store (which, in this codebase, no publish or registration path
ever touches). -/
structure SystemState where
  broker : Broker
  store : MessageStore
  deriving Repr, DecidableEq

/-- `SendToClient` followed by the control loop draining that message
(broker.go lines 171–184 then 78–80 and 118–145). The `MessageStore` is
carried through unchanged because no code on this path refers to it. -/
def SystemState.dispatchTargeted (sys : SystemState) (clientID event data : String) :
    Except String SystemState :=
  match sendToClientMsg clientID event data with
  | .error e => .error e
  | .ok m => .ok { sys with broker := sys.broker.broadcastMessage m }

end GoSSE

namespace GoSSE

/-- A control-loop run: the intakes `Broker.Start` processes, in order,
before any shutdown. -/
def Broker.steps (b : Broker) (ops : List BrokerOp) : Broker :=
  ops.foldl Broker.step b

/-! Concrete fixtures used by the witness theorems below. -/

/-- An open client with an empty queue on chat `room1`. -/
def wClient1 : Client := ⟨"room1_a", [], 2, false⟩

/-- A broker holding only `wClient1`, well under its ceiling. -/
def wBroker1 : Broker := ⟨[wClient1], 10⟩

/-- A broadcast (untargeted) message. -/
def wMsg1 : Message := ⟨"message", "null", ""⟩

/-- An open client that already has one queued message. -/
def wClient2 : Client := ⟨"room1_y", ["m0"], 8, false⟩

/-- A broker holding only `wClient2`, below its ceiling. -/
def wBroker2 : Broker := ⟨[wClient2], 4⟩

/-- An open client with spare queue capacity for two messages. -/
def wClient3 : Client := ⟨"x", [], 2, false⟩

/-- A broker holding only `wClient3`. -/
def wBroker3 : Broker := ⟨[wClient3], 10⟩

/-- Two broadcast messages published in order. -/
def wMs3 : List Message := [⟨"e", "d1", ""⟩, ⟨"e", "d2", ""⟩]

/-- A store holding two entries for `room1`, stored at times 1 and 2. -/
def wStore5 : MessageStore :=
  runStores (newMessageStore 50 300 0)
    [⟨"room1", "a", "message", "pa", 1⟩, ⟨"room1", "b", "message", "pb", 2⟩]

/-- A store holding one entry for `room1`, stored at time 1. -/
def wStore6 : MessageStore :=
  runStores (newMessageStore 50 300 0) [⟨"room1", "a", "message", "pa", 1⟩]

/-- The single entry held by `wStore6`. -/
def wEntry6 : StoredMessage := ⟨"a", "message", "pa", 1⟩

/-- A client filling a broker whose ceiling is one connection. -/
def wClient7 : Client := ⟨"a", [], 2, false⟩

/-- A broker at its one-connection capacity ceiling. -/
def wBroker7 : Broker := ⟨[wClient7], 1⟩

/-- A connection arriving while `wBroker7` is full. -/
def wRej7 : Client := ⟨"b", [], 2, false⟩

/-- A broker with three open registered connections. -/
def wBroker8 : Broker :=
  ⟨[⟨"a", [], 2, false⟩, ⟨"b", [], 2, false⟩, ⟨"c", [], 2, false⟩], 10⟩

/-- A system whose broker does not know the id `conn42`. -/
def wSys9 : SystemState := ⟨⟨[⟨"room1_a", [], 2, false⟩], 10⟩, newMessageStore 50 300 0⟩

/-- A registered connection with a pending queued message. -/
def wOld10 : Client := ⟨"room1_dup", ["pending"], 4, false⟩

/-- A second connection claiming the same id as `wOld10`. -/
def wNew10 : Client := ⟨"room1_dup", [], 4, false⟩

/-- A broker already holding `wOld10`, below its ceiling. -/
def wBroker10 : Broker := ⟨[wOld10], 5⟩

end GoSSE

namespace GoSSE

/-!
Helper lemmas about the embedded operations, shared by the claim
theorems below.
-/

theorem foldl_collect_eq_filter (p : StoredMessage → Bool) (l acc : List StoredMessage) :
    l.foldl (fun acc m => if p m then acc ++ [m] else acc) acc = acc ++ l.filter p := by
  induction l generalizing acc with
  | nil => simp
  | cons x xs ih =>
    by_cases hx : p x <;> simp [hx, ih, List.filter_cons]

theorem collectAfter_eq_filter (t : Int) (msgs : List StoredMessage) :
    collectAfter t msgs = msgs.filter (fun m => m.afterTime t) := by
  simpa using foldl_collect_eq_filter (fun m => m.afterTime t) msgs []

theorem getRecentMessages_eq_collect (s : MessageStore) (chatID : String) (since : Int) :
    s.getRecentMessages chatID since = collectAfter since (s.topicEntries chatID) := by
  unfold MessageStore.getRecentMessages MessageStore.topicEntries
  cases h : historyGet s.messages chatID <;> simp [collectAfter]

theorem find?_historyMap_ne (h : ChatHistory) (k k' : String) (v : List StoredMessage)
    (hne : k' ≠ k) :
    (h.map (fun p => if p.1 = k then (k, v) else p)).find? (fun p => p.1 = k') =
      h.find? (fun p => p.1 = k') := by
  induction h with
  | nil => rfl
  | cons p t ih =>
    by_cases hp : p.1 = k
    · simp only [List.map_cons, hp, if_true, List.find?]
      have h1 : ((k, v).1 = k') = False := by simp [Ne.symm hne]
      have h2 : (p.1 = k') = False := by simp [hp, Ne.symm hne]
      simp [h1, h2, ih]
    · simp only [List.map_cons, hp, if_false, List.find?]
      by_cases hq : p.1 = k' <;> simp [hq, ih]

theorem find?_historyMap_eq (h : ChatHistory) (k : String) (v : List StoredMessage)
    (hany : h.any (fun p => p.1 = k) = true) :
    (h.map (fun p => if p.1 = k then (k, v) else p)).find? (fun p => p.1 = k) =
      some (k, v) := by
  induction h with
  | nil => simp at hany
  | cons p t ih =>
    by_cases hp : p.1 = k
    · simp [List.find?, hp]
    · have hany2 : t.any (fun p => p.1 = k) = true := by simpa [hp] using hany
      simp [List.find?, hp, ih hany2]

theorem historyGet_historySet (h : ChatHistory) (k k' : String) (v : List StoredMessage) :
    historyGet (historySet h k v) k' =
      if k' = k then some v else historyGet h k' := by
  unfold historySet historyGet
  by_cases hany : h.any (fun p => p.1 = k)
  · by_cases hk : k' = k
    · subst hk
      simp [hany, find?_historyMap_eq h k' v hany]
    · simp [hany, find?_historyMap_ne h k k' v hk, hk]
  · have hnone : h.find? (fun p => p.1 = k) = none := by
      rw [List.find?_eq_none]
      intro x hx
      by_contra hc
      exact hany (List.any_eq_true.mpr ⟨x, hx, hc⟩)
    by_cases hk : k' = k
    · subst hk
      simp [hany, List.find?_append, hnone]
    · simp only [hany, Bool.false_eq_true, if_false, List.find?_append, hnone]
      by_cases hfind : (h.find? fun p => p.1 = k').isSome
      · obtain ⟨p, hp⟩ := Option.isSome_iff_exists.mp hfind
        simp [hp, hk]
      · simp only [Bool.not_eq_true, Option.not_isSome_iff_eq_none] at hfind
        simp [hfind, List.find?, Ne.symm hk, hk]

theorem find?_registryMap_ne (cs : List Client) (c : Client) (id : String)
    (hne : id ≠ c.id) :
    (cs.map (fun x => if x.id = c.id then c else x)).find? (fun x => x.id = id) =
      cs.find? (fun x => x.id = id) := by
  induction cs with
  | nil => rfl
  | cons x t ih =>
    by_cases hx : x.id = c.id
    · have h1 : (c.id = id) = False := by simp [Ne.symm hne]
      have h2 : (x.id = id) = False := by simp [hx, Ne.symm hne]
      simp [List.find?, hx, h1, h2, ih]
    · by_cases hq : x.id = id <;> simp [List.find?, hx, hq, ih, hne]

theorem find?_registryMap_eq (cs : List Client) (c : Client)
    (hany : cs.any (fun x => x.id = c.id) = true) :
    (cs.map (fun x => if x.id = c.id then c else x)).find? (fun x => x.id = c.id) =
      some c := by
  induction cs with
  | nil => simp at hany
  | cons x t ih =>
    by_cases hx : x.id = c.id
    · simp [List.find?, hx]
    · have hany2 : t.any (fun x => x.id = c.id) = true := by simpa [hx] using hany
      simp [List.find?, hx, ih hany2]

theorem registryGet_registrySet (cs : List Client) (c : Client) (id : String) :
    registryGet (registrySet cs c) id =
      if id = c.id then some c else registryGet cs id := by
  unfold registrySet registryGet
  by_cases hany : cs.any (fun x => x.id = c.id)
  · by_cases hk : id = c.id
    · subst hk
      simp [hany, find?_registryMap_eq cs c hany]
    · simp [hany, find?_registryMap_ne cs c id hk, hk]
  · have hnone : cs.find? (fun x => x.id = c.id) = none := by
      rw [List.find?_eq_none]
      intro x hx
      by_contra hc
      exact hany (List.any_eq_true.mpr ⟨x, hx, hc⟩)
    by_cases hk : id = c.id
    · subst hk
      simp [hany, List.find?_append, hnone]
    · simp only [hany, Bool.false_eq_true, if_false, List.find?_append, hnone]
      by_cases hfind : (cs.find? fun x => x.id = id).isSome
      · obtain ⟨p, hp⟩ := Option.isSome_iff_exists.mp hfind
        simp [hp, hk]
      · simp only [Bool.not_eq_true, Option.not_isSome_iff_eq_none] at hfind
        simp [hfind, List.find?, Ne.symm hk, hk]

theorem registrySet_length (cs : List Client) (c : Client) :
    (registrySet cs c).length =
      if cs.any (fun x => x.id = c.id) then cs.length else cs.length + 1 := by
  unfold registrySet
  by_cases hany : cs.any (fun x => x.id = c.id) <;> simp [hany]

theorem mem_registrySet (cs : List Client) (c x : Client) (hx : x ∈ registrySet cs c) :
    x ∈ cs ∨ x = c := by
  unfold registrySet at hx
  by_cases hany : cs.any (fun y => y.id = c.id)
  · simp only [hany, if_true] at hx
    obtain ⟨y, hy, hyx⟩ := List.mem_map.mp hx
    by_cases hyc : y.id = c.id
    · simp [hyc] at hyx
      exact Or.inr hyx.symm
    · simp [hyc] at hyx
      exact Or.inl (hyx ▸ hy)
  · simp only [hany, Bool.false_eq_true, if_false, List.mem_append, List.mem_singleton] at hx
    exact hx

theorem mem_registrySet_of_ne (cs : List Client) (c x : Client) (hx : x ∈ cs)
    (hne : x.id ≠ c.id) : x ∈ registrySet cs c := by
  unfold registrySet
  by_cases hany : cs.any (fun y => y.id = c.id)
  · simp only [hany, if_true]
    refine List.mem_map.mpr ⟨x, hx, ?_⟩
    simp [hne]
  · simp [hany, hx]

theorem Client.sendOrKeep_eq (c : Client) (msg : String) :
    c.sendOrKeep msg =
      if c.isClosed = false ∧ c.messageChan.length < c.chanCapacity then
        { c with messageChan := c.messageChan ++ [msg] }
      else c := by
  unfold Client.sendOrKeep Client.send
  cases hc : c.isClosed
  · by_cases h2 : c.chanCapacity ≤ c.messageChan.length
    · simp [hc, h2, Nat.not_lt.mpr h2]
    · simp [hc, h2, Nat.lt_of_not_le h2]
  · simp [hc]

theorem Client.sendOrKeep_id (c : Client) (msg : String) :
    (c.sendOrKeep msg).id = c.id := by
  rw [Client.sendOrKeep_eq]
  by_cases h : c.isClosed = false ∧ c.messageChan.length < c.chanCapacity <;> simp [h]

theorem storeMessage_topicEntries (s : MessageStore) (chatID messageID event data : String)
    (now : Int) (t : String) :
    (s.storeMessage chatID messageID event data now).topicEntries t =
      if t = chatID then
        (if s.maxMessagesPerChat <
            (s.topicEntries chatID ++
              [(⟨messageID, event, data, now⟩ : StoredMessage)]).length then
          (s.topicEntries chatID ++
            [(⟨messageID, event, data, now⟩ : StoredMessage)]).tail
        else
          s.topicEntries chatID ++
            [(⟨messageID, event, data, now⟩ : StoredMessage)])
      else s.topicEntries t := by
  unfold MessageStore.storeMessage MessageStore.topicEntries
  simp only [historyGet_historySet]
  by_cases ht : t = chatID <;> simp [ht]

theorem storeMessage_max (s : MessageStore) (chatID messageID event data : String) (now : Int) :
    (s.storeMessage chatID messageID event data now).maxMessagesPerChat =
      s.maxMessagesPerChat := rfl

theorem storeMessage_bound (s : MessageStore) (chatID messageID event data : String)
    (now : Int) (t : String)
    (h : (s.topicEntries t).length ≤ s.maxMessagesPerChat ∧
         (s.topicEntries chatID).length ≤ s.maxMessagesPerChat) :
    ((s.storeMessage chatID messageID event data now).topicEntries t).length ≤
      s.maxMessagesPerChat := by
  rw [storeMessage_topicEntries]
  by_cases ht : t = chatID
  · simp only [ht, if_true, List.length_append, List.length_singleton]
    by_cases hlen : s.maxMessagesPerChat < (s.topicEntries chatID).length + 1
    · rw [if_pos hlen]
      simp only [List.length_tail, List.length_append, List.length_singleton]
      omega
    · rw [if_neg hlen]
      simp only [List.length_append, List.length_singleton]
      omega
  · simp [ht, h.1]

theorem runStores_bound (ops : List StoreOp) (s : MessageStore)
    (h : ∀ t, (s.topicEntries t).length ≤ s.maxMessagesPerChat) :
    ∀ t, ((runStores s ops).topicEntries t).length ≤ s.maxMessagesPerChat := by
  induction ops generalizing s with
  | nil => simpa [runStores] using h
  | cons o rest ih =>
    intro t
    have step : ∀ t', ((s.storeMessage o.chatID o.messageID o.event o.data o.now).topicEntries t').length ≤
        (s.storeMessage o.chatID o.messageID o.event o.data o.now).maxMessagesPerChat := by
      intro t'
      rw [storeMessage_max]
      exact storeMessage_bound s o.chatID o.messageID o.event o.data o.now t' ⟨h t', h o.chatID⟩
    have := ih (s.storeMessage o.chatID o.messageID o.event o.data o.now) step t
    rw [storeMessage_max] at this
    simpa [runStores, List.foldl_cons] using this

theorem cleanup_topicEntries_subset (s : MessageStore) (now : Int) (t : String)
    (x : StoredMessage) (hx : x ∈ (s.cleanup now).topicEntries t) :
    x.afterTime (now - s.maxMessageAge) = true := by
  unfold MessageStore.topicEntries at hx
  cases hget : historyGet (s.cleanup now).messages t with
  | none => simp [hget] at hx
  | some v =>
    rw [hget] at hx
    simp only [Option.getD_some] at hx
    unfold historyGet at hget
    cases hfind : ((s.cleanup now).messages.find? (fun p => p.1 = t)) with
    | none => simp [hfind] at hget
    | some p =>
      rw [hfind] at hget
      simp at hget
      have hp : p ∈ (s.cleanup now).messages := List.mem_of_find?_eq_some hfind
      unfold MessageStore.cleanup at hp
      have hp2 := List.mem_filter.mp hp
      obtain ⟨q, hq, hqp⟩ := List.mem_map.mp hp2.1
      have hv : v = collectAfter (now - s.maxMessageAge) q.2 := by
        rw [← hget, ← hqp]
      rw [hv, collectAfter_eq_filter] at hx
      exact (List.mem_filter.mp hx).2

theorem cleanup_removes_empty_key (s : MessageStore) (now : Int) (t : String)
    (hall : ∀ p ∈ s.messages, p.1 = t →
      collectAfter (now - s.maxMessageAge) p.2 = []) :
    historyGet (s.cleanup now).messages t = none := by
  unfold historyGet MessageStore.cleanup
  have hnone : (List.find? (fun p => p.1 = t)
      (List.filter (fun p => 0 < p.2.length)
        (List.map (fun p => (p.1, collectAfter (now - s.maxMessageAge) p.2)) s.messages))) =
      none := by
    rw [List.find?_eq_none]
    intro p hp
    have hp2 := List.mem_filter.mp hp
    obtain ⟨q, hq, hqp⟩ := List.mem_map.mp hp2.1
    intro hpt
    have hq1 : q.1 = t := by
      have : p.1 = q.1 := by rw [← hqp]
      simp only [this] at hpt
      exact of_decide_eq_true hpt
    have hempty : collectAfter (now - s.maxMessageAge) q.2 = [] := hall q hq hq1
    have : p.2 = [] := by rw [← hqp, hempty]
    have hlen := hp2.2
    rw [this] at hlen
    simp at hlen
  rw [hnone]
  rfl

theorem historyGet_eq_of_mem_nodup (h : ChatHistory) (p : String × List StoredMessage)
    (hnd : (h.map Prod.fst).Nodup) (hp : p ∈ h) : historyGet h p.1 = some p.2 := by
  induction h with
  | nil => simp at hp
  | cons q rest ih =>
    rcases List.mem_cons.mp hp with hq | hq
    · subst hq
      simp [historyGet, List.find?]
    · have hnd2 : (rest.map Prod.fst).Nodup := (List.nodup_cons.mp hnd).2
      have hne : ¬ q.1 = p.1 := by
        intro he
        exact (List.nodup_cons.mp hnd).1 (he ▸ List.mem_map_of_mem Prod.fst hq)
      have hrec := ih hnd2 hq
      have hstep : List.find? (fun x => decide (x.1 = p.1)) (q :: rest) =
          List.find? (fun x => decide (x.1 = p.1)) rest := by
        simp [List.find?, hne]
      unfold historyGet at hrec ⊢
      rw [hstep]
      exact hrec

theorem step_preserves (b : Broker) (op : BrokerOp) :
    (b.step op).maxClients = b.maxClients ∧
    (b.clients.length ≤ b.maxClients → (b.step op).clients.length ≤ b.maxClients) := by
  cases op with
  | register c =>
    unfold Broker.step Broker.registerClient
    by_cases hcap : b.maxClients ≤ b.clients.length
    · simp [hcap]
    · refine ⟨by simp [hcap], ?_⟩
      intro hinv
      simp only [hcap, if_false]
      rw [registrySet_length]
      by_cases hany : b.clients.any (fun x => x.id = c.id) <;> simp [hany] <;> omega
  | unregister c =>
    have hred : b.step (.unregister c) =
        (match registryGet b.clients c.id with
         | none => b
         | some _ => { b with clients := registryDel b.clients c.id }) := rfl
    rw [hred]
    cases hfind : registryGet b.clients c.id with
    | none => exact ⟨rfl, fun h => h⟩
    | some x =>
      refine ⟨rfl, ?_⟩
      intro hinv
      show (registryDel b.clients c.id).length ≤ b.maxClients
      unfold registryDel
      exact le_trans (List.length_filter_le _ _) hinv
  | broadcast m =>
    have hred : b.step (.broadcast m) =
        (if m.target ≠ "" then
          match registryGet b.clients m.target with
          | some c => { b with clients := registrySet b.clients (c.sendOrKeep m.data) }
          | none => b
        else { b with clients := b.clients.map (fun c => c.sendOrKeep m.data) }) := rfl
    rw [hred]
    by_cases ht : m.target ≠ ""
    · rw [if_pos ht]
      cases hfind : registryGet b.clients m.target with
      | none => exact ⟨rfl, fun h => h⟩
      | some c =>
        refine ⟨rfl, ?_⟩
        intro hinv
        show (registrySet b.clients (c.sendOrKeep m.data)).length ≤ b.maxClients
        rw [registrySet_length]
        have hmem := List.mem_of_find?_eq_some hfind
        have hany : b.clients.any
            (fun x => x.id = (c.sendOrKeep m.data).id) = true := by
          refine List.any_eq_true.mpr ⟨c, hmem, ?_⟩
          simp [Client.sendOrKeep_id]
        simp [hany, hinv]
    · rw [if_neg ht]
      refine ⟨rfl, ?_⟩
      intro hinv
      show (b.clients.map (fun c => c.sendOrKeep m.data)).length ≤ b.maxClients
      simpa using hinv

theorem steps_bound (ops : List BrokerOp) (b : Broker)
    (hinv : b.clients.length ≤ b.maxClients) :
    (b.steps ops).clients.length ≤ b.maxClients := by
  induction ops generalizing b with
  | nil => simpa [Broker.steps] using hinv
  | cons op rest ih =>
    have h1 := step_preserves b op
    have h2 := ih (b.step op) (by rw [h1.1]; exact h1.2 hinv)
    rw [h1.1] at h2
    simpa [Broker.steps] using h2

theorem broadcastMessage_all (b : Broker) (m : Message) (hm : m.target = "") :
    (b.broadcastMessage m).clients = b.clients.map (fun c => c.sendOrKeep m.data) := by
  have hred : b.broadcastMessage m =
      (if m.target ≠ "" then
        match registryGet b.clients m.target with
        | some c => { b with clients := registrySet b.clients (c.sendOrKeep m.data) }
        | none => b
      else { b with clients := b.clients.map (fun c => c.sendOrKeep m.data) }) := rfl
  rw [hred, if_neg (by simp [hm])]

theorem registryGet_map_sendOrKeep (cs : List Client) (msg : String) (id : String) :
    registryGet (cs.map (fun c => c.sendOrKeep msg)) id =
      (registryGet cs id).map (fun c => c.sendOrKeep msg) := by
  unfold registryGet
  induction cs with
  | nil => rfl
  | cons x t ih =>
    by_cases hx : x.id = id
    · simp [List.find?, Client.sendOrKeep_id, hx]
    · simp [List.find?, Client.sendOrKeep_id, hx, ih]

end GoSSE

namespace GoSSE

/-!
The claim theorems, with their witnesses and counterexamples.
-/

/-- Claim C1, as stated, is false of the code: `Message` carries no
topic, and dispatch of an event with an empty `Target` delivers to every
registered client. Here two clients whose chat topics (the id text
before the underscore, the convention the handlers use) differ both
receive the same untargeted event, so delivery cannot equal "exactly the
Connections whose topic matches the event's topic" for any topic value
the event might carry. -/
theorem C1_counterexample :
    registryGet (Broker.broadcastMessage
        ⟨[⟨"room1_a", [], 256, false⟩, ⟨"room2_b", [], 256, false⟩], 100⟩
        ⟨"message", "null", ""⟩).clients "room1_a" =
      some ⟨"room1_a", ["null"], 256, false⟩ ∧
    registryGet (Broker.broadcastMessage
        ⟨[⟨"room1_a", [], 256, false⟩, ⟨"room2_b", [], 256, false⟩], 100⟩
        ⟨"message", "null", ""⟩).clients "room2_b" =
      some ⟨"room2_b", ["null"], 256, false⟩ ∧
    clientTopic "room1_a" ≠ clientTopic "room2_b" := by decide

/-- Claim C1 (amended): dispatch ignores topics. If `target` is set the
event is delivered only to the client registered under that id (no-op
when absent); otherwise — whether or not the producer thought of the
event as scoped to a topic — it is delivered to every registered client,
each open client with queue room receiving the payload appended to its
queue. -/
theorem C1_dispatch_targeted_or_all (b : Broker) (m : Message) :
    (m.target = "" →
      ∀ c ∈ b.clients, ∃ c2 ∈ (b.broadcastMessage m).clients, c2.id = c.id ∧
        c2.messageChan =
          (if c.isClosed = false ∧ c.messageChan.length < c.chanCapacity then
            c.messageChan ++ [m.data] else c.messageChan)) ∧
    (m.target ≠ "" →
      ((∀ x ∈ b.clients, x.id ≠ m.target → x ∈ (b.broadcastMessage m).clients) ∧
       (∀ c, registryGet b.clients m.target = some c →
         registryGet (b.broadcastMessage m).clients m.target =
           some (if c.isClosed = false ∧ c.messageChan.length < c.chanCapacity then
             { c with messageChan := c.messageChan ++ [m.data] } else c)))) := by
  have hred : b.broadcastMessage m =
      (if m.target ≠ "" then
        match registryGet b.clients m.target with
        | some c => { b with clients := registrySet b.clients (c.sendOrKeep m.data) }
        | none => b
      else { b with clients := b.clients.map (fun c => c.sendOrKeep m.data) }) := rfl
  constructor
  · intro hm c hc
    rw [broadcastMessage_all b m hm]
    refine ⟨c.sendOrKeep m.data, List.mem_map_of_mem _ hc, Client.sendOrKeep_id c m.data, ?_⟩
    rw [Client.sendOrKeep_eq]
    by_cases hcond : c.isClosed = false ∧ c.messageChan.length < c.chanCapacity <;>
      simp [hcond]
  · intro ht
    rw [hred, if_pos ht]
    cases hfind : registryGet b.clients m.target with
    | none =>
      refine ⟨fun x hx _ => hx, ?_⟩
      intro c hc
      exact absurd hc (by simp)
    | some c0 =>
      have hc0 : c0.id = m.target := by
        have := List.find?_some hfind
        simpa using this
      constructor
      · intro x hx hne
        refine mem_registrySet_of_ne b.clients (c0.sendOrKeep m.data) x hx ?_
        rw [Client.sendOrKeep_id, hc0]
        exact hne
      · intro c hc
        injection hc with hc
        subst hc
        show registryGet (registrySet b.clients (c0.sendOrKeep m.data)) m.target = _
        rw [registryGet_registrySet]
        rw [if_pos (by rw [Client.sendOrKeep_id, hc0])]
        rw [Client.sendOrKeep_eq]

/-- Witness for the amended claim C1 at a concrete broker and
untargeted message. -/
theorem C1_witness :
    ∀ c ∈ wBroker1.clients, ∃ c2 ∈ (wBroker1.broadcastMessage wMsg1).clients, c2.id = c.id ∧
      c2.messageChan =
        (if c.isClosed = false ∧ c.messageChan.length < c.chanCapacity then
          c.messageChan ++ [wMsg1.data] else c.messageChan) :=
  (C1_dispatch_targeted_or_all wBroker1 wMsg1).1 (by decide)

/-- Claim C2, as stated, is false of the code: with k = 1 event stored
for `room1` inside the retention window, a connection registering
immediately afterwards has an empty queue — not the k + 2 items (start
control marker, the entry, end control marker) the claim requires before
any live event. `registerClient` never consults the store. -/
theorem C2_counterexample :
    (((newMessageStore 50 300 0).storeMessage "room1" "e1" "message" "p1" 10).getRecentMessages
        "room1" 0).length = 1 ∧
    registryGet ((newBroker 100).registerClient ⟨"room1_x", [], 256, false⟩).1.clients
        "room1_x" = some ⟨"room1_x", [], 256, false⟩ ∧
    (⟨"room1_x", ([] : List String), 256, false⟩ : Client).messageChan.length = 0 ∧
    (0 : Nat) ≠ 1 + 2 := by decide

/-- Claim C2 (amended): registration performs no replay at all. Below
the capacity ceiling, `registerClient` only inserts the connection into
the registry with its queue exactly as it was: no stored entries and no
control markers are enqueued for it, and no other client's state is
invented (every client of the new registry is an old one or the
admitted one unchanged). -/
theorem C2_registration_no_replay (b : Broker) (c : Client)
    (hcap : b.clients.length < b.maxClients) :
    registryGet (b.registerClient c).1.clients c.id = some c ∧
    (∀ x ∈ (b.registerClient c).1.clients, x ∈ b.clients ∨ x = c) := by
  have hnc : ¬ b.maxClients ≤ b.clients.length := Nat.not_le.mpr hcap
  unfold Broker.registerClient
  rw [if_neg hnc]
  constructor
  · show registryGet (registrySet b.clients c) c.id = some c
    rw [registryGet_registrySet]
    simp
  · intro x hx
    exact mem_registrySet b.clients c x hx

/-- Witness for the amended claim C2 at a concrete broker below its
ceiling. -/
theorem C2_witness :
    wBroker2.clients.length < wBroker2.maxClients ∧
    (registryGet (wBroker2.registerClient ⟨"room1_z", [], 8, false⟩).1.clients "room1_z" =
        some ⟨"room1_z", [], 8, false⟩ ∧
      (∀ x ∈ (wBroker2.registerClient ⟨"room1_z", [], 8, false⟩).1.clients,
        x ∈ wBroker2.clients ∨ x = ⟨"room1_z", [], 8, false⟩)) :=
  ⟨by decide, C2_registration_no_replay wBroker2 ⟨"room1_z", [], 8, false⟩ (by decide)⟩

/-- Claim C3: events broadcast while a connection stays registered, with
its queue never overflowing, reach its queue in exactly publish order,
and the write loop then emits their SSE data frames in that same
order. -/
theorem C3_publish_order_preserved (b : Broker) (ms : List Message) (cid : String) (c : Client)
    (hreg : registryGet b.clients cid = some c)
    (hopen : c.isClosed = false)
    (hroom : c.messageChan.length + ms.length ≤ c.chanCapacity)
    (hb : ∀ m ∈ ms, m.target = "") :
    registryGet (b.processBroadcasts ms).clients cid =
      some { c with messageChan := c.messageChan ++ ms.map Message.data } ∧
    Client.listenOutput { c with messageChan := c.messageChan ++ ms.map Message.data } =
      c.listenOutput ++ (ms.map Message.data).map sseDataFrame := by
  constructor
  · induction ms generalizing b c with
    | nil =>
      simpa [Broker.processBroadcasts] using hreg
    | cons m rest ih =>
      have hm : m.target = "" := hb m (List.mem_cons_self m rest)
      have hstep : registryGet (b.broadcastMessage m).clients cid =
          some { c with messageChan := c.messageChan ++ [m.data] } := by
        rw [broadcastMessage_all b m hm, registryGet_map_sendOrKeep, hreg]
        show some (c.sendOrKeep m.data) = _
        rw [Client.sendOrKeep_eq]
        rw [if_pos ⟨hopen, by simp at hroom; omega⟩]
      have hrest := ih (b.broadcastMessage m) { c with messageChan := c.messageChan ++ [m.data] }
        hstep hopen (by simp at hroom ⊢; omega) (fun x hx => hb x (List.mem_cons_of_mem m hx))
      have heq : (b.processBroadcasts (m :: rest)) =
          ((b.broadcastMessage m).processBroadcasts rest) := by
        simp [Broker.processBroadcasts]
      rw [heq, hrest]
      simp
  · simp [Client.listenOutput]

/-- Witness for claim C3: two broadcasts delivered in order to one
registered client. -/
theorem C3_witness :
    (registryGet wBroker3.clients "x" = some wClient3 ∧
      wClient3.isClosed = false ∧
      wClient3.messageChan.length + wMs3.length ≤ wClient3.chanCapacity ∧
      (∀ m ∈ wMs3, m.target = "")) ∧
    (registryGet (wBroker3.processBroadcasts wMs3).clients "x" =
        some { wClient3 with messageChan := wClient3.messageChan ++ wMs3.map Message.data } ∧
      Client.listenOutput
          { wClient3 with messageChan := wClient3.messageChan ++ wMs3.map Message.data } =
        wClient3.listenOutput ++ (wMs3.map Message.data).map sseDataFrame) :=
  ⟨⟨by decide, by decide, by decide, by decide⟩,
    C3_publish_order_preserved wBroker3 wMs3 "x" wClient3
      (by decide) (by decide) (by decide) (by decide)⟩

/-- Claim C4: after any sequence of store operations from a fresh store,
every topic holds at most `maxMessagesPerChat` entries, the oldest
entry being evicted first; in the concrete max-count 2 scenario,
storing `a`, `b`, `c` leaves exactly `b` then `c` available for
replay. -/
theorem C4_history_capped_and_fifo :
    (∀ (maxN : Nat) (age now0 : Int) (ops : List StoreOp) (topic : String),
      ((runStores (newMessageStore maxN age now0) ops).topicEntries topic).length ≤ maxN) ∧
    (((runStores (newMessageStore 2 (5*60) 0)
        [⟨"room1", "a", "message", "pa", 1⟩, ⟨"room1", "b", "message", "pb", 2⟩,
         ⟨"room1", "c", "message", "pc", 3⟩]).topicEntries "room1").map StoredMessage.id =
      ["b", "c"]) ∧
    (((runStores (newMessageStore 2 (5*60) 0)
        [⟨"room1", "a", "message", "pa", 1⟩, ⟨"room1", "b", "message", "pb", 2⟩,
         ⟨"room1", "c", "message", "pc", 3⟩]).getRecentMessages "room1" 0).map
        StoredMessage.id = ["b", "c"]) := by
  refine ⟨?_, by decide, by decide⟩
  intro maxN age now0 ops topic
  have h0 : ∀ t, (((newMessageStore maxN age now0).topicEntries t)).length ≤
      (newMessageStore maxN age now0).maxMessagesPerChat := by
    intro t
    simp [newMessageStore, MessageStore.topicEntries, historyGet]
  exact runStores_bound ops (newMessageStore maxN age now0) h0 topic

/-- Claim C5: `GetRecentMessages` returns exactly the stored entries of
the topic whose timestamp is strictly after `since`, in stored (hence,
for chronologically stored lists, oldest-first) order, and the empty
list for a topic with no entries. -/
theorem C5_recent_filter_ordered (s : MessageStore) (chatID : String) (since : Int)
    (hchron : (s.topicEntries chatID).Pairwise (fun a b => a.timestamp ≤ b.timestamp)) :
    (s.getRecentMessages chatID since =
      (s.topicEntries chatID).filter (fun m => m.afterTime since)) ∧
    (∀ m, m ∈ s.getRecentMessages chatID since ↔
      m ∈ s.topicEntries chatID ∧ since < m.timestamp) ∧
    ((s.getRecentMessages chatID since).Pairwise (fun a b => a.timestamp ≤ b.timestamp)) ∧
    (s.topicEntries chatID = [] → s.getRecentMessages chatID since = []) := by
  have he : s.getRecentMessages chatID since =
      (s.topicEntries chatID).filter (fun m => m.afterTime since) := by
    rw [getRecentMessages_eq_collect, collectAfter_eq_filter]
  refine ⟨he, ?_, ?_, ?_⟩
  · intro m
    rw [he, List.mem_filter]
    simp [StoredMessage.afterTime]
  · rw [he]
    exact hchron.sublist (List.filter_sublist _)
  · intro hempty
    rw [he, hempty]
    rfl

/-- Witness for claim C5 on a store with two chronologically stored
entries. -/
theorem C5_witness :
    ((wStore5.topicEntries "room1").Pairwise (fun a b => a.timestamp ≤ b.timestamp)) ∧
    ((wStore5.getRecentMessages "room1" 1 =
        (wStore5.topicEntries "room1").filter (fun m => m.afterTime 1)) ∧
      (∀ m, m ∈ wStore5.getRecentMessages "room1" 1 ↔
        m ∈ wStore5.topicEntries "room1" ∧ 1 < m.timestamp) ∧
      ((wStore5.getRecentMessages "room1" 1).Pairwise (fun a b => a.timestamp ≤ b.timestamp)) ∧
      (wStore5.topicEntries "room1" = [] → wStore5.getRecentMessages "room1" 1 = [])) :=
  ⟨by decide, C5_recent_filter_ordered wStore5 "room1" 1 (by decide)⟩

/-- Claim C6: a stored entry whose age exceeds the retention window is
excluded from `GetRecentMessages` queried at the retention cutoff and
is removed by the sweep; and when every entry of a topic has expired the
sweep removes the topic's map key entirely (key uniqueness of the Go
map is the `Nodup` hypothesis). -/
theorem C6_retention_sweep (s : MessageStore) (topic : String) (m : StoredMessage) (now : Int)
    (hm : m ∈ s.topicEntries topic)
    (hage : s.maxMessageAge < now - m.timestamp)
    (hkeys : (s.messages.map Prod.fst).Nodup) :
    m ∉ s.getRecentMessages topic (now - s.maxMessageAge) ∧
    m ∉ (s.cleanup now).topicEntries topic ∧
    ((∀ x ∈ s.topicEntries topic, x.afterTime (now - s.maxMessageAge) = false) →
      historyGet (s.cleanup now).messages topic = none) := by
  have hts : m.afterTime (now - s.maxMessageAge) = false := by
    simp only [StoredMessage.afterTime, decide_eq_false_iff_not, not_lt]
    omega
  refine ⟨?_, ?_, ?_⟩
  · intro hmem
    rw [getRecentMessages_eq_collect, collectAfter_eq_filter] at hmem
    have h2 := (List.mem_filter.mp hmem).2
    rw [hts] at h2
    exact Bool.false_ne_true h2
  · intro hmem
    have h2 := cleanup_topicEntries_subset s now topic m hmem
    rw [hts] at h2
    exact Bool.false_ne_true h2
  · intro hall
    apply cleanup_removes_empty_key
    intro p hp hpt
    have hget : historyGet s.messages topic = some p.2 := by
      have h3 := historyGet_eq_of_mem_nodup s.messages p hkeys hp
      rwa [hpt] at h3
    have hent : s.topicEntries topic = p.2 := by
      simp [MessageStore.topicEntries, hget]
    rw [collectAfter_eq_filter, List.filter_eq_nil_iff]
    intro x hx
    have h4 := hall x (hent ▸ hx)
    simp [h4]

/-- Witness for claim C6: an entry aged 399 against a 300-unit
retention window. -/
theorem C6_witness :
    (wEntry6 ∈ wStore6.topicEntries "room1" ∧
      wStore6.maxMessageAge < 400 - wEntry6.timestamp ∧
      (wStore6.messages.map Prod.fst).Nodup) ∧
    (wEntry6 ∉ wStore6.getRecentMessages "room1" (400 - wStore6.maxMessageAge) ∧
      wEntry6 ∉ (wStore6.cleanup 400).topicEntries "room1" ∧
      ((∀ x ∈ wStore6.topicEntries "room1",
          x.afterTime (400 - wStore6.maxMessageAge) = false) →
        historyGet (wStore6.cleanup 400).messages "room1" = none)) :=
  ⟨⟨by decide, by decide, by decide⟩,
    C6_retention_sweep wStore6 "room1" wEntry6 400 (by decide) (by decide) (by decide)⟩

/-- Claim C7: a registration arriving at the capacity ceiling closes the
new connection and leaves the broker — registry and reported client
count — untouched, and along any control-loop run from a state within
the ceiling the registered count never exceeds `MaxClients`. -/
theorem C7_admission_cap (b : Broker) (c : Client) :
    (b.maxClients ≤ b.clients.length →
      (b.registerClient c).1 = b ∧
      ((b.registerClient c).2).isClosed = true ∧
      (b.registerClient c).1.getClientCount = b.getClientCount) ∧
    (b.getClientCount ≤ b.maxClients →
      ∀ ops : List BrokerOp, (b.steps ops).getClientCount ≤ b.maxClients) := by
  constructor
  · intro hcap
    unfold Broker.registerClient
    rw [if_pos hcap]
    exact ⟨rfl, rfl, rfl⟩
  · intro hinv ops
    exact steps_bound ops b hinv

/-- Witness for claim C7 at a broker already at its one-connection
ceiling. -/
theorem C7_witness :
    ((wBroker7.registerClient wRej7).1 = wBroker7 ∧
      ((wBroker7.registerClient wRej7).2).isClosed = true ∧
      (wBroker7.registerClient wRej7).1.getClientCount = wBroker7.getClientCount) ∧
    (wBroker7.steps [.register wRej7, .unregister wClient7,
        .broadcast ⟨"e", "d", ""⟩]).getClientCount ≤ wBroker7.maxClients :=
  ⟨(C7_admission_cap wBroker7 wRej7).1 (by decide),
    (C7_admission_cap wBroker7 wRej7).2 (by decide)
      [.register wRej7, .unregister wClient7, .broadcast ⟨"e", "d", ""⟩]⟩

/-- Claim C8 states the code's clear intent (the comment on
`closeAllClients` reads "closes all client connections"), but the code
deadlocks instead of fulfilling it: with three open registered
connections, the shutdown sweep blocks inside the first
`client.Close()` on the unbuffered `Unregister` send, whose only
receiver is the control loop running the sweep itself. Only one
connection reaches its closed state, the registry is never cleared, and
the reported client count stays 3 — never the claimed 0. -/
theorem C8_shutdown_deadlock :
    (wBroker8.closeAllClients).2 = false ∧
    (wBroker8.closeAllClients).1.getClientCount = 3 ∧
    ((wBroker8.closeAllClients).1.clients.filter (fun c => c.isClosed)).length = 1 ∧
    ¬ (wBroker8.closeAllClients).1.getClientCount = 0 := by decide

/-- Claim C9: publishing an event targeted at an unregistered id is a
complete no-op — the producer gets no error, no client queue changes,
and the history store is untouched (nothing on this code path writes
it). -/
theorem C9_unknown_target_noop (sys : SystemState) (clientID event data : String)
    (hne : clientID ≠ "")
    (hmiss : registryGet sys.broker.clients clientID = none) :
    sys.dispatchTargeted clientID event data = .ok sys := by
  unfold SystemState.dispatchTargeted sendToClientMsg marshalValue
  have hred : sys.broker.broadcastMessage ⟨event, data, clientID⟩ =
      (if clientID ≠ "" then
        match registryGet sys.broker.clients clientID with
        | some c => { sys.broker with
            clients := registrySet sys.broker.clients (c.sendOrKeep data) }
        | none => sys.broker
      else { sys.broker with
          clients := sys.broker.clients.map (fun c => c.sendOrKeep data) }) := rfl
  simp only [hred, if_pos hne, hmiss]

/-- Witness for claim C9 targeting the unknown id `conn42`. -/
theorem C9_witness :
    (("conn42" : String) ≠ "" ∧ registryGet wSys9.broker.clients "conn42" = none) ∧
    wSys9.dispatchTargeted "conn42" "message" "null" = .ok wSys9 :=
  ⟨⟨by decide, by decide⟩,
    C9_unknown_target_noop wSys9 "conn42" "message" "null" (by decide) (by decide)⟩

/-- Claim C10: registering a connection whose id is already present
(below the ceiling) silently replaces the registry entry: the lookup now
yields the new connection, the count is unchanged, clients under other
ids are untouched, no client is closed by the operation, and such
collisions are reachable because the handler accepts a client-supplied
`client_id` query parameter. -/
theorem C10_duplicate_id_silent_replace (b : Broker) (c old : Client)
    (hold : registryGet b.clients c.id = some old)
    (hcap : b.clients.length < b.maxClients) :
    registryGet (b.registerClient c).1.clients c.id = some c ∧
    (b.registerClient c).1.getClientCount = b.getClientCount ∧
    (∀ x ∈ b.clients, x.id ≠ c.id → x ∈ (b.registerClient c).1.clients) ∧
    (∀ x ∈ (b.registerClient c).1.clients, x ∈ b.clients ∨ x = c) ∧
    (b.registerClient c).2 = c ∧
    chooseClientID "room1" "room1_dup" "fresh-uuid" = "room1_dup" := by
  have hnc : ¬ b.maxClients ≤ b.clients.length := Nat.not_le.mpr hcap
  have hany : b.clients.any (fun x => x.id = c.id) = true := by
    refine List.any_eq_true.mpr ⟨old, List.mem_of_find?_eq_some hold, ?_⟩
    have := List.find?_some hold
    simpa using this
  unfold Broker.registerClient
  rw [if_neg hnc]
  refine ⟨?_, ?_, ?_, ?_, rfl, by decide⟩
  · show registryGet (registrySet b.clients c) c.id = some c
    rw [registryGet_registrySet]
    simp
  · show (registrySet b.clients c).length = b.clients.length
    rw [registrySet_length, if_pos hany]
  · intro x hx hne
    exact mem_registrySet_of_ne b.clients c x hx hne
  · intro x hx
    exact mem_registrySet b.clients c x hx

/-- Witness for claim C10: a duplicate id replacing a registered
connection that still has a queued message. -/
theorem C10_witness :
    (registryGet wBroker10.clients wNew10.id = some wOld10 ∧
      wBroker10.clients.length < wBroker10.maxClients) ∧
    (registryGet (wBroker10.registerClient wNew10).1.clients wNew10.id = some wNew10 ∧
      (wBroker10.registerClient wNew10).1.getClientCount = wBroker10.getClientCount ∧
      (∀ x ∈ wBroker10.clients, x.id ≠ wNew10.id →
        x ∈ (wBroker10.registerClient wNew10).1.clients) ∧
      (∀ x ∈ (wBroker10.registerClient wNew10).1.clients, x ∈ wBroker10.clients ∨ x = wNew10) ∧
      (wBroker10.registerClient wNew10).2 = wNew10 ∧
      chooseClientID "room1" "room1_dup" "fresh-uuid" = "room1_dup") :=
  ⟨⟨by decide, by decide⟩,
    C10_duplicate_id_silent_replace wBroker10 wNew10 wOld10 (by decide) (by decide)⟩

end GoSSE
